import Mathlib

/-!
Verification of the hfp qualitative causal reasoning engine
(backend/app: engine.py, api.py, context_baselines.py, models.py).

The Python code is shallowly embedded: enumerated string literals become
inductive types, Python floats become `ℚ` (every constant appearing in the
code is an exact decimal), `Optional[T]` becomes `Option T`, dictionaries
keyed by strings become association lists, and imperative loops become
structural recursions over the iterated list.  Each definition mirrors one
function of the source, cited in its doc comment.
-/

namespace HFP

/-- Direction of a qualitative state (`models.py`, `Direction` literal). -/
inductive Direction where
  | up
  | down
  | unknown
  | unchanged
deriving DecidableEq, Repr, Fintype

/-- Edge relation (`models.py`, `Relation` literal). -/
inductive Relation where
  | increases
  | decreases
  | converts_to
  | requires
  | enables
  | precedes
  | part_of
  | causes
  | refines
  | derives
deriving DecidableEq, Repr, Fintype

/-- Timescale (`models.py`, `Timescale` literal). -/
inductive Timescale where
  | immediate
  | minutes
  | hours
  | days
deriving DecidableEq, Repr, Fintype

/-- Influence/edge priority.  Edges carry `low|medium|high` (`models.py`,
`Priority` literal); manual perturbations are seeded with the string
`"ultra"` (`engine.py` line 71), so the influence-level priority type has a
fourth value. -/
inductive Priority where
  | low
  | medium
  | high
  | ultra
deriving DecidableEq, Repr, Fintype

/-- Magnitude bin (`models.py`, `Magnitude` literal). -/
inductive Magnitude where
  | none
  | small
  | medium
  | large
deriving DecidableEq, Repr, Fintype

/-- Perturbation op (`models.py`, `Perturbation.op` literal). -/
inductive Op where
  | increase
  | decrease
  | block
  | set
deriving DecidableEq, Repr, Fintype

/-- Change classification of the compare endpoint (`models.py`,
`ComparedNode.change_type` literal). -/
inductive ChangeType where
  | new
  | resolved
  | direction_flip
  | strengthened
  | weakened
  | unchanged
deriving DecidableEq, Repr, Fintype

/-- `engine.py` `TIME_MAP`: timescale to tick index. -/
def TIME_MAP : Timescale → Nat
  | .immediate => 0
  | .minutes => 1
  | .hours => 2
  | .days => 3

/-- `engine.py` `REV_TIME_MAP.get(tick, "immediate")`: inverse of `TIME_MAP`
with default `immediate` off the 0..3 range. -/
def revTimeMap : Nat → Timescale
  | 0 => .immediate
  | 1 => .minutes
  | 2 => .hours
  | 3 => .days
  | _ => .immediate

/-- `engine.py` `POSITIVE_RELATIONS`: the direction-preserving relations. -/
def POSITIVE_RELATIONS : List Relation :=
  [.increases, .converts_to, .requires, .enables, .precedes, .part_of,
   .causes, .refines, .derives]

/-- `engine.py` `ReasoningEngine._clamp(value, floor, ceiling)`
(`max(floor, min(ceiling, value))`); the Python defaults are
`floor=0.0, ceiling=1.0` and every call site below passes them explicitly. -/
def clamp (value floor ceiling : ℚ) : ℚ :=
  max floor (min ceiling value)

/-- `models.py` `AffectedNode`. -/
structure AffectedNode where
  node_id : String
  direction : Direction
  magnitude : Magnitude
  confidence : ℚ
  effect_size : ℚ
  timescale : Timescale
  tick : Nat
deriving DecidableEq, Repr

/-- `models.py` `ComparedNode`.  The fields left unset at the single
construction site (`api.py` `_classify_change`) default to `0.0` in the
Pydantic model; the embedding of `_classify_change` writes those defaults
explicitly. -/
structure ComparedNode where
  node_id : String
  baseline_direction : Option Direction
  intervention_direction : Option Direction
  baseline_confidence : ℚ
  intervention_confidence : ℚ
  baseline_effect_size : ℚ
  intervention_effect_size : ℚ
  confidence_delta : ℚ
  effect_size_delta : ℚ
  change_type : ChangeType
deriving DecidableEq, Repr

/-- `api.py` `_classify_change(baseline, intervention)`.  `None` arguments
are falsy in Python; an `AffectedNode` instance is always truthy.  The
`ComparedNode` constructor call supplies no effect-size fields, so
`baseline_effect_size`, `intervention_effect_size` and `effect_size_delta`
take their Pydantic defaults of `0.0`. -/
def classify_change (baseline intervention : Option AffectedNode) : ComparedNode :=
  let baseline_dir : Option Direction := baseline.map (fun b => b.direction)
  let intervention_dir : Option Direction := intervention.map (fun i => i.direction)
  let baseline_conf : ℚ := (baseline.map (fun b => b.confidence)).getD 0
  let intervention_conf : ℚ := (intervention.map (fun i => i.confidence)).getD 0
  let change_type : ChangeType :=
    if baseline.isNone && intervention.isSome then ChangeType.new
    else if baseline.isSome && intervention.isNone then ChangeType.resolved
    else if baseline.isSome && intervention.isSome && decide (baseline_dir ≠ intervention_dir) then
      ChangeType.direction_flip
    else if intervention_conf > baseline_conf + 5/100 then ChangeType.strengthened
    else if baseline_conf > intervention_conf + 5/100 then ChangeType.weakened
    else ChangeType.unchanged
  let node_id :=
    match intervention with
    | some i => i.node_id
    | none =>
      match baseline with
      | some b => b.node_id
      | none => ""
  { node_id := node_id
    baseline_direction := baseline_dir
    intervention_direction := intervention_dir
    baseline_confidence := baseline_conf
    intervention_confidence := intervention_conf
    baseline_effect_size := 0
    intervention_effect_size := 0
    confidence_delta := intervention_conf - baseline_conf
    effect_size_delta := 0
    change_type := change_type }

/-- `engine.py` influence dictionaries: the entries written into
`influence_buffer[node_id][tick]` (`ReasoningEngine.simulate`). -/
structure Influence where
  direction : Direction
  confidence : ℚ
  effect_size : ℚ
  priority : Priority
  path : List String
  steps : List String
deriving DecidableEq, Repr

/-- `engine.py` `_resolve_influence`, `pri_map = {"low": 1, "medium": 2,
"high": 3, "ultra": 10}`.  The source looks priorities up by string with
default rank 2; the schema (`models.py`) and the seeding code only ever
produce the four strings enumerated by `Priority`, so the default branch is
unreachable and the lookup is total here. -/
def priRank : Priority → Nat
  | .low => 1
  | .medium => 2
  | .high => 3
  | .ultra => 10

/-- `engine.py` `_resolve_influence`: `max_pri = max(pri_map.get(...) for inf
in influences)`.  `foldl max 0` agrees with Python's `max` on the non-empty
lists the source applies it to, every rank being positive. -/
def maxPriRank (influences : List Influence) : Nat :=
  (influences.map (fun i => priRank i.priority)).foldl max 0

/-- `engine.py` `_resolve_influence`: `top_influences`, the influences of
maximal priority rank. -/
def topInfluences (influences : List Influence) : List Influence :=
  influences.filter (fun i => priRank i.priority == maxPriRank influences)

/-- `engine.py` `_resolve_influence`: sum of `effect_size` over the members
of a list with the given direction (used for `up_score`/`down_score`). -/
def directionScore (d : Direction) (top : List Influence) : ℚ :=
  ((top.filter (fun i => decide (i.direction = d))).map (fun i => i.effect_size)).sum

/-- `engine.py` `_resolve_influence`: `up_score` over the top tier. -/
def up_score (influences : List Influence) : ℚ :=
  directionScore Direction.up (topInfluences influences)

/-- `engine.py` `_resolve_influence`: `down_score` over the top tier. -/
def down_score (influences : List Influence) : ℚ :=
  directionScore Direction.down (topInfluences influences)

/-- `engine.py` `_resolve_influence`: `winning`, the members of the top tier
whose direction is the resolved one. -/
def winningInfluences (influences : List Influence) (d : Direction) : List Influence :=
  (topInfluences influences).filter (fun i => decide (i.direction = d))

/-- `engine.py` `_resolve_influence`: `mean_confidence = sum(confidence of
winning) / max(1, len(winning))`. -/
def meanWinningConfidence (influences : List Influence) (d : Direction) : ℚ :=
  ((winningInfluences influences d).map (fun i => i.confidence)).sum
    / ((max 1 (winningInfluences influences d).length : ℕ) : ℚ)

/-- `engine.py` `_effect_size_to_magnitude`. -/
def effect_size_to_magnitude (effect_size : ℚ) : Magnitude :=
  if effect_size < 10/100 then .none
  else if effect_size < 30/100 then .small
  else if effect_size < 65/100 then .medium
  else .large

/-- `engine.py` `_resolve_influence(influences, node_id, tick)`, restricted
to the resolved `AffectedNode` (the function's further return values —
dominant influence, hop count and trace-only branches — feed only the trace
machinery and are not needed by the claims below).  The source's
`if up > down: up / elif down > up: down / else: return None` chain is
rendered as an equality test first; the branches agree case by case. -/
def resolve_influence (influences : List Influence) (node_id : String) (tick : Nat) :
    Option AffectedNode :=
  if influences.isEmpty then none
  else if up_score influences = down_score influences then none
  else
    let direction : Direction :=
      if down_score influences < up_score influences then .up else .down
    let losing_sum : ℚ :=
      if down_score influences < up_score influences then down_score influences
      else up_score influences
    let effect_size : ℚ := clamp |up_score influences - down_score influences| 0 1
    let opposition : ℚ :=
      losing_sum / max (1/100) (up_score influences + down_score influences)
    let confidence : ℚ :=
      clamp (meanWinningConfidence influences direction * (1 - 1/2 * opposition)) (1/10) 1
    some { node_id := node_id
           direction := direction
           magnitude := effect_size_to_magnitude effect_size
           confidence := confidence
           effect_size := effect_size
           timescale := revTimeMap tick
           tick := tick }

/-- `models.py` `Perturbation`. -/
structure Perturbation where
  node_id : String
  op : Op
  value : Option ℚ
deriving DecidableEq, Repr

/-- `engine.py` `ReasoningEngine.simulate`, line 63: the direction seeded
for a perturbation op. -/
def seedDirection (op : Op) : Direction :=
  if op = .increase then .up
  else if op = .decrease ∨ op = .block then .down
  else .unchanged

/-- `engine.py` `ReasoningEngine.simulate`, lines 67-74: the influence
dictionary seeded for one perturbation. -/
def seedInfluence (p : Perturbation) : Influence :=
  { direction := seedDirection p.op
    confidence := 1
    effect_size := 1
    priority := .ultra
    path := [p.node_id]
    steps := [] }

/-- `engine.py` `ReasoningEngine.simulate`, lines 62-74: the tick-0 seeding
loop.  Each retained perturbation appends one influence to
`influence_buffer[p.node_id][0]`; a perturbation whose `node_id` is not a
key of `self.nodes` is skipped with `continue`.  The buffer writes are
modelled as the ordered list of `(node_id, tick, influence)` deliveries. -/
def seedInfluences (nodes : List String) (perturbations : List Perturbation) :
    List (String × Nat × Influence) :=
  perturbations.filterMap (fun p =>
    if nodes.contains p.node_id then some (p.node_id, 0, seedInfluence p) else none)

/-- Node id used by the concrete C1 evaluation. -/
def c1NodeId : String := "node"

/-- Failing input from the repo's own test
`test_classify_change_prefers_effect_size_delta` (baseline side):
confidence 0.9, effect_size 0.2. -/
def c1Baseline : AffectedNode :=
  { node_id := c1NodeId, direction := .up, magnitude := .small
    confidence := 9/10, effect_size := 2/10, timescale := .hours, tick := 0 }

/-- Intervention side of the same test: confidence 0.7, effect_size 0.4. -/
def c1Intervention : AffectedNode :=
  { node_id := c1NodeId, direction := .up, magnitude := .medium
    confidence := 7/10, effect_size := 4/10, timescale := .hours, tick := 0 }

/-- Baseline of `test_classify_change_ignores_confidence_only_noise`:
confidence 0.4, effect_size 0.2. -/
def c1Baseline2 : AffectedNode :=
  { node_id := c1NodeId, direction := .up, magnitude := .small
    confidence := 4/10, effect_size := 2/10, timescale := .hours, tick := 0 }

/-- Intervention of the same test: confidence 0.9, effect_size 0.2. -/
def c1Intervention2 : AffectedNode :=
  { node_id := c1NodeId, direction := .up, magnitude := .small
    confidence := 9/10, effect_size := 2/10, timescale := .hours, tick := 0 }

/-- Sample node id for resolver witnesses. -/
def wNodeId : String := "renal.raas.renin"

/-- Sample influence for the C2 witness. -/
def c2SampleInfluence : Influence :=
  { direction := .up, confidence := 1/2, effect_size := 1/2, priority := .high
    path := [], steps := [] }

/-- Sample influence for the C9 witness: every contributor's confidence is
below the 0.1 floor. -/
def c9SampleInfluence : Influence :=
  { direction := .up, confidence := 1/100, effect_size := 1, priority := .ultra
    path := [wNodeId], steps := [] }

/-- The state the resolver computes for `[c9SampleInfluence]` at tick 0. -/
def c9Result : AffectedNode :=
  { node_id := wNodeId, direction := .up, magnitude := .large
    confidence := 1/10, effect_size := 1, timescale := .immediate, tick := 0 }

/-- Sample `unchanged` influence for the C5 witness. -/
def c5UnchangedInfluence : Influence :=
  { direction := .unchanged, confidence := 1, effect_size := 1, priority := .ultra
    path := [wNodeId], steps := [] }

/-- Sample perturbation for the C5 witness. -/
def c5SamplePerturbation : Perturbation :=
  { node_id := wNodeId, op := .set, value := none }

/-- `engine.py` `ReasoningEngine._propagate_direction(direction, rel)`. -/
def propagate_direction (direction : Direction) (rel : Relation) : Direction :=
  if direction = .unknown ∨ direction = .unchanged then direction
  else if rel ∈ POSITIVE_RELATIONS then direction
  else if rel = .decreases then (if direction = .up then .down else .up)
  else .unknown

/-- Claim-side helper for C7: the flip of a signed direction. -/
def flipDirection : Direction → Direction
  | .up => .down
  | .down => .up
  | d => d

/-- `context_baselines.py` `CONTEXT_BASELINE_EFFECTS`: the fixed table of
baseline physiologic shifts per context flag, in declaration order (Python
dicts iterate in insertion order). -/
def CONTEXT_BASELINE_EFFECTS : List (String × List (String × Op)) :=
  [("ace_inhibitor",
    [("renal.raas.at1_receptor", Op.decrease),
     ("renal.raas.aldosterone", Op.decrease)]),
   ("beta_blocker",
    [("cardio.signaling.gs_protein", Op.decrease),
     ("cardio.hemodynamics.heart_rate", Op.decrease)]),
   ("heart_failure",
    [("cardio.hemodynamics.stroke_volume", Op.decrease),
     ("cardio.metabolism.myocardial_o2_supply", Op.decrease),
     ("renal.metabolism.anp_bnp", Op.increase)]),
   ("dehydration",
    [("renal.volume.ecf_volume", Op.decrease),
     ("renal.metabolism.osmolarity", Op.increase),
     ("renal.metabolism.adh", Op.increase)]),
   ("ckd",
    [("renal.tubule.na_reabsorption", Op.decrease),
     ("renal.metabolism.potassium", Op.increase)]),
   ("copd",
    [("pulm.mechanics.resistance", Op.increase),
     ("pulm.gasexchange.vq_mismatch", Op.increase),
     ("pulm.gasexchange.diffusion_capacity", Op.decrease)])]

/-- `context_baselines.py` `apply_context_baselines`, inner loop: walk one
flag's effects, appending each perturbation whose node is neither a user
node nor in `added`, threading the `added` bookkeeping set. -/
def addEffects (user_nodes : List String) (effects : List (String × Op))
    (merged : List Perturbation) (added : List String) :
    List Perturbation × List String :=
  match effects with
  | [] => (merged, added)
  | (node_id, op) :: rest =>
    if user_nodes.contains node_id || added.contains node_id then
      addEffects user_nodes rest merged added
    else
      addEffects user_nodes rest
        (merged ++ [{ node_id := node_id, op := op, value := none }])
        (added ++ [node_id])

/-- `context_baselines.py` `apply_context_baselines`, outer loop: walk the
table in order, processing the effects of each flag set true in the context
(`context.get(context_id, False)`). -/
def applyBaselinesTable (table : List (String × List (String × Op)))
    (context : List (String × Bool)) (user_nodes : List String)
    (merged : List Perturbation) (added : List String) : List Perturbation :=
  match table with
  | [] => merged
  | (context_id, effects) :: rest =>
    if (List.lookup context_id context).getD false then
      let step := addEffects user_nodes effects merged added
      applyBaselinesTable rest context user_nodes step.1 step.2
    else
      applyBaselinesTable rest context user_nodes merged added

/-- `context_baselines.py` `apply_context_baselines(perturbations, context)`:
start from the user perturbations, with `user_nodes` their node ids and an
empty `added` set. -/
def apply_context_baselines (perturbations : List Perturbation)
    (context : List (String × Bool)) : List Perturbation :=
  applyBaselinesTable CONTEXT_BASELINE_EFFECTS context
    (perturbations.map (fun p => p.node_id)) perturbations []

/-- Claim-side for C6: one flag's baseline perturbations whose node id is
neither among the user perturbations' node ids nor already appended. -/
def flagFresh (user_nodes added : List String) (effects : List (String × Op)) :
    List Perturbation :=
  (effects.filter (fun e => !(user_nodes.contains e.1 || added.contains e.1))).map
    (fun e => { node_id := e.1, op := e.2, value := none })

/-- Claim-side for C6: the perturbations appended after the user list — for
each flag set true, in table order, that flag's baseline perturbations whose
node id is neither a user node id nor appended by an earlier true flag. -/
def specExtra (user_nodes : List String) (context : List (String × Bool)) :
    List (String × List (String × Op)) → List String → List Perturbation
  | [], _ => []
  | (flag, effects) :: rest, added =>
    if (List.lookup flag context).getD false then
      flagFresh user_nodes added effects
        ++ specExtra user_nodes context rest
            (added ++ (flagFresh user_nodes added effects).map (fun q => q.node_id))
    else
      specExtra user_nodes context rest added

/-- Activation gate direction (`models.py`, `ActivationDirection` literal). -/
inductive ActivationDirection where
  | up
  | down
  | any
deriving DecidableEq, Repr, Fintype

/-- `models.py` `EdgePhase`.  The source field `at` is a Lean keyword and is
rendered `at_ts`. -/
structure EdgePhase where
  at_ts : Timescale
  rel : Option Relation
  weight : Option ℚ
  priority : Option Priority
  activation_direction : Option ActivationDirection
  activation_threshold : Option ℚ
  description : Option String
deriving DecidableEq, Repr

/-- `models.py` `Edge`.  `legacy_timing` renders the `_legacy_timing`
`PrivateAttr`, which defaults to `False` and is never assigned anywhere in
the repository. -/
structure Edge where
  source : String
  target : String
  rel : Relation
  weight : ℚ
  delay : Timescale
  priority : Priority
  activation_direction : ActivationDirection
  activation_threshold : Option ℚ
  context : List (String × Bool)
  description : Option String
  temporal_profile : List EdgePhase
  legacy_timing : Bool
deriving DecidableEq, Repr

/-- `models.py` `CompiledEdge`. -/
structure CompiledEdge where
  source : String
  target : String
  at_ts : Timescale
  at_tick : Nat
  rel : Relation
  weight : ℚ
  priority : Priority
  activation_direction : ActivationDirection
  activation_threshold : Option ℚ
  context : List (String × Bool)
  description : Option String
  is_legacy_timing : Bool
deriving DecidableEq, Repr

/-- Python `phase.description or edge.description`: `None` and the empty
string are both falsy. -/
def orElseDescription (phase_desc edge_desc : Option String) : Option String :=
  match phase_desc with
  | some s => if s = "" then edge_desc else some s
  | none => edge_desc

/-- `engine.py` `_compile_edges`: the implicit `EdgePhase(at=edge.delay)`
built for an edge without temporal profile (all other phase fields keep the
model defaults `None`). -/
def defaultPhase (edge : Edge) : EdgePhase :=
  { at_ts := edge.delay, rel := none, weight := none, priority := none
    activation_direction := none, activation_threshold := none, description := none }

/-- `engine.py` `_compile_edges`, loop body: one `CompiledEdge` per phase.
`rel`, `priority` and `activation_direction` fall back with Python `or`
(enum members are never falsy, so this is an option-default); `weight` and
`activation_threshold` fall back on `is not None`; `description` uses `or`
on strings, where the empty string is falsy. -/
def compilePhase (edge : Edge) (phase : EdgePhase) : CompiledEdge :=
  { source := edge.source
    target := edge.target
    at_ts := phase.at_ts
    at_tick := TIME_MAP phase.at_ts
    rel := phase.rel.getD edge.rel
    weight := phase.weight.getD edge.weight
    priority := phase.priority.getD edge.priority
    activation_direction := phase.activation_direction.getD edge.activation_direction
    activation_threshold :=
      match phase.activation_threshold with
      | some t => some t
      | none => edge.activation_threshold
    context := edge.context
    description := orElseDescription phase.description edge.description
    is_legacy_timing := edge.legacy_timing || edge.temporal_profile.isEmpty }

/-- `engine.py` `_compile_edges`, per edge:
`phases = edge.temporal_profile or [EdgePhase(at=edge.delay)]` (an empty
list is falsy). -/
def compileEdge (edge : Edge) : List CompiledEdge :=
  (match edge.temporal_profile with
   | [] => [defaultPhase edge]
   | ps => ps).map (compilePhase edge)

/-- `engine.py` `_compile_edges(edges)`: concatenation over the edge list. -/
def compile_edges (edges : List Edge) : List CompiledEdge :=
  (edges.map compileEdge).flatten

/-- Sample edge for the C8 witness: no temporal profile. -/
def c8SampleEdge : Edge :=
  { source := "a", target := "b", rel := .increases, weight := 1
    delay := .hours, priority := .medium, activation_direction := .any
    activation_threshold := none, context := [], description := none
    temporal_profile := [], legacy_timing := false }

/-- `models.py` `TraceStep`. -/
structure TraceStep where
  path : List String
  steps : List String
  confidence : ℚ
  summary : Option String
deriving DecidableEq, Repr

/-- Claim-side/order for C4: descending lexicographic comparison on the key
`(confidence, len(path))` used by `_upsert_trace`'s
`sort(key=lambda x: (x.confidence, len(x.path)), reverse=True)`. -/
def traceKeyGe (a b : TraceStep) : Prop :=
  b.confidence < a.confidence ∨
    (a.confidence = b.confidence ∧ b.path.length ≤ a.path.length)

instance : DecidableRel traceKeyGe := fun a b => by
  unfold traceKeyGe
  infer_instance

instance : IsTotal TraceStep traceKeyGe :=
  ⟨fun a b => by
    unfold traceKeyGe
    rcases lt_trichotomy a.confidence b.confidence with h | h | h
    · exact Or.inr (Or.inl h)
    · rcases le_total b.path.length a.path.length with hl | hl
      · exact Or.inl (Or.inr ⟨h, hl⟩)
      · exact Or.inr (Or.inr ⟨h.symm, hl⟩)
    · exact Or.inl (Or.inl h)⟩

instance : IsTrans TraceStep traceKeyGe :=
  ⟨fun a b c hab hbc => by
    unfold traceKeyGe at *
    rcases hab with h1 | ⟨h1, h1l⟩ <;> rcases hbc with h2 | ⟨h2, h2l⟩
    · exact Or.inl (lt_trans h2 h1)
    · exact Or.inl (h2 ▸ h1)
    · exact Or.inl (by rw [h1]; exact h2)
    · exact Or.inr ⟨h1.trans h2, le_trans h2l h1l⟩⟩

/-- `engine.py` `_upsert_trace`:
`traces[target_id].sort(key=lambda x: (x.confidence, len(x.path)),
reverse=True)`.  Python's sort is stable; insertion sort with the
descending-key relation reproduces a stable descending sort. -/
def sortTraces (l : List TraceStep) : List TraceStep :=
  List.insertionSort traceKeyGe l

/-- `engine.py` `_upsert_trace`, the scan loop (lines 258-267): replace the
first entry with an identical path — only when the new confidence is
strictly greater — then `break`; append when no entry matches. -/
def replaceFirst : List TraceStep → TraceStep → List TraceStep
  | [], t => [t]
  | x :: xs, t =>
    if x.path = t.path then
      (if x.confidence < t.confidence then t else x) :: xs
    else
      x :: replaceFirst xs t

/-- `engine.py` `_upsert_trace` restricted to one target's ranked list:
an absent target short-circuits to the singleton list (lines 254-256);
otherwise scan/replace-or-append, re-sort descending by
`(confidence, len(path))`, truncate to 10 (lines 258-270).  The `summary`
construction (lines 246-252) is orthogonal to the list policy: the already
built `new_trace` is passed in whole. -/
def upsert_trace (existing : Option (List TraceStep)) (new_trace : TraceStep) :
    List TraceStep :=
  match existing with
  | none => [new_trace]
  | some lst => (sortTraces (replaceFirst lst new_trace)).take 10

/-- Sample trace for the C4 witness. -/
def c4SampleTrace : TraceStep :=
  { path := [wNodeId], steps := [], confidence := 1/2, summary := none }

/-- `engine.py` `_subsequence_span`, the scan loop.  The first argument is
the unscanned suffix of `path`, the second the unmatched suffix of
`sequence`; `idx` is the enumerate counter and `first` the recorded
`first_match_idx`.  On a head match the counter is recorded (if first),
the sequence advances, and an exhausted sequence returns
`(first_match_idx, current_idx)`; otherwise the scan moves on.  The
`cons/nil` pattern is unreachable from `subsequence_span` (the sequence
suffix only becomes empty at the return inside the loop). -/
def spanAux : List String → List String → Nat → Option Nat → Option (Nat × Nat)
  | [], _, _, _ => none
  | _ :: _, [], _, _ => none
  | p :: ps, s :: rest, idx, first =>
    if p = s then
      match rest with
      | [] => some (first.getD idx, idx)
      | _ :: _ => spanAux ps rest (idx + 1) (some (first.getD idx))
    else
      spanAux ps (s :: rest) (idx + 1) first

/-- `engine.py` `_subsequence_span(path, sequence)`: `None` for an empty
sequence, else the greedy scan from index 0. -/
def subsequence_span (path sequence : List String) : Option (Nat × Nat) :=
  match sequence with
  | [] => none
  | _ :: _ => spanAux path sequence 0 none

/-- Index-free rendering of the tail phase of the greedy scan (the first
index already recorded): the relative index at which the remaining sequence
is completed, if it is. -/
def greedyLast : List String → List String → Option Nat
  | [], _ => none
  | _ :: _, [] => none
  | p :: ps, s :: rest =>
    if p = s then
      match rest with
      | [] => some 0
      | _ :: _ => (greedyLast ps rest).map (fun b => b + 1)
    else
      (greedyLast ps (s :: rest)).map (fun b => b + 1)

/-- Index-free rendering of the whole greedy scan: relative
`(first, last)` span. -/
def spanRel : List String → List String → Option (Nat × Nat)
  | [], _ => none
  | _ :: _, [] => none
  | p :: ps, s :: rest =>
    if p = s then
      match rest with
      | [] => some (0, 0)
      | _ :: _ => (greedyLast ps rest).map (fun b => (0, b + 1))
    else
      (spanRel ps (s :: rest)).map (fun q => (q.1 + 1, q.2 + 1))

/-- Claim-side for C3: `MatchSpan path seq i j` states that `seq` occurs as
an order-preserving (possibly non-contiguous) subsequence of `path` whose
first element sits at index `i` and whose last element sits at index `j` —
a "matching span" `(first_idx, last_idx)` of the claim.  `single`: a
one-element sequence matched at the head spans `(0, 0)`; `head`: matching
the head and embedding the rest in the tail ending at `j` spans
`(0, j + 1)`; `skip`: an embedding of the tail shifts both endpoints. -/
inductive MatchSpan : List String → List String → Nat → Nat → Prop where
  | single (a : String) (p : List String) : MatchSpan (a :: p) [a] 0 0
  | head (a : String) (p : List String) (rest : List String) (i j : Nat) :
      MatchSpan p rest i j → MatchSpan (a :: p) (a :: rest) 0 (j + 1)
  | skip (x : String) (p : List String) (seq : List String) (i j : Nat) :
      MatchSpan p seq i j → MatchSpan (x :: p) seq (i + 1) (j + 1)

/-- Node label used by the C3 concrete path. -/
def cxA : String := "a"

/-- Second node label used by the C3 concrete path. -/
def cxB : String := "b"

/-- C3 concrete path `[a, a, b]`. -/
def cxPath : List String := [cxA, cxA, cxB]

/-- C3 concrete syndrome sequence `[a, b]`. -/
def cxSeq : List String := [cxA, cxB]

/-- Sample user perturbations for the C6 witness: the user already perturbs
the AT1 receptor, so only the aldosterone baseline of `ace_inhibitor` is
appended. -/
def c6SampleUser : List Perturbation :=
  [{ node_id := "renal.raas.at1_receptor", op := Op.increase, value := none }]

/-- Sample context for the C6 witness. -/
def c6SampleContext : List (String × Bool) := [("ace_inhibitor", true)]

/-- Expected merged list for the C6 witness. -/
def c6Expected : List Perturbation :=
  c6SampleUser ++ [{ node_id := "renal.raas.aldosterone", op := Op.decrease, value := none }]

end HFP

namespace HFP

/-- C7: direction propagation composes algebraically: for a source direction
in `{up, down}`, two positive relations preserve the direction; a positive
relation composed with `decreases` (in either order) equals the flip of the
direction; and two `decreases` relations return the original direction
(`engine.py` `_propagate_direction`). -/
theorem c7_direction_algebra (d : Direction) (r₁ r₂ : Relation)
    (hd : d = Direction.up ∨ d = Direction.down) :
    (r₁ ∈ POSITIVE_RELATIONS → r₂ ∈ POSITIVE_RELATIONS →
      propagate_direction (propagate_direction d r₁) r₂ = d) ∧
    (r₁ ∈ POSITIVE_RELATIONS →
      propagate_direction (propagate_direction d r₁) Relation.decreases = flipDirection d ∧
      propagate_direction (propagate_direction d Relation.decreases) r₁ = flipDirection d) ∧
    propagate_direction (propagate_direction d Relation.decreases) Relation.decreases = d := by
  rcases hd with h | h <;> subst h <;> revert r₁ r₂ <;> decide

/-- Witness for C7 at `d = up`, `r₁ = increases`, `r₂ = causes`. -/
theorem c7_direction_algebra_witness :
    propagate_direction (propagate_direction Direction.up Relation.increases) Relation.causes
      = Direction.up :=
  (c7_direction_algebra Direction.up Relation.increases Relation.causes (Or.inl rfl)).1
    (by decide) (by decide)

/-- Helper: the two signed directions are distinct (used to evaluate
direction filters on concrete influences). -/
theorem direction_up_ne_down : Direction.up ≠ Direction.down := by
  decide

/-- Helper: a clamp with `floor ≤ ceiling` lands in `[floor, ceiling]`. -/
theorem clamp_mem (value floor ceiling : ℚ) (h : floor ≤ ceiling) :
    floor ≤ clamp value floor ceiling ∧ clamp value floor ceiling ≤ ceiling :=
  ⟨le_max_left _ _, max_le h (min_le_left _ _)⟩

/-- Helper: the magnitude bins of `_effect_size_to_magnitude`. -/
theorem effect_size_to_magnitude_bins (es : ℚ) :
    (effect_size_to_magnitude es = Magnitude.none ↔ es < 10/100) ∧
    (effect_size_to_magnitude es = Magnitude.small ↔ 10/100 ≤ es ∧ es < 30/100) ∧
    (effect_size_to_magnitude es = Magnitude.medium ↔ 30/100 ≤ es ∧ es < 65/100) ∧
    (effect_size_to_magnitude es = Magnitude.large ↔ 65/100 ≤ es) := by
  unfold effect_size_to_magnitude
  split_ifs with h1 h2 h3 <;>
    refine ⟨?_, ?_, ?_, ?_⟩ <;> simp <;> first
      | linarith
      | (constructor <;> linarith)
      | (intro h; linarith)

/-- C1 (code_bug evidence): the compare classifier evaluated at the inputs
of the repo's own tests.  On the input of
`test_classify_change_prefers_effect_size_delta` (baseline confidence 0.9 /
effect_size 0.2, intervention confidence 0.7 / effect_size 0.4) the code
returns `weakened` with `effect_size_delta = 0` where the spec and the test
demand `strengthened` with delta 0.2; on the input of
`test_classify_change_ignores_confidence_only_noise` (equal effect sizes,
confidence 0.4 vs 0.9) the code returns `strengthened` where the spec and
the test demand `unchanged`. -/
theorem c1_classifier_uses_confidence_not_effect_size :
    (classify_change (some c1Baseline) (some c1Intervention)).change_type
      = ChangeType.weakened ∧
    (classify_change (some c1Baseline) (some c1Intervention)).effect_size_delta = 0 ∧
    (classify_change (some c1Baseline2) (some c1Intervention2)).change_type
      = ChangeType.strengthened := by
  refine ⟨?_, rfl, ?_⟩ <;>
    norm_num [classify_change, c1Baseline, c1Intervention, c1Baseline2, c1Intervention2]

/-- C2: on a non-empty influence bucket the resolver restricts to the
maximal-priority tier, sums effect sizes by direction into `up_score` and
`down_score`; equal sums (including both zero) give no resolution, and
otherwise the resolved direction is the larger side,
`effect_size = clamp01(|up_score − down_score|)`, confidence is the mean
confidence of the winning-direction members of the tier times
`1 − 0.5·losing_sum/max(0.01, up_score+down_score)` clamped to `[0.1, 1]`,
and the magnitude is binned at 0.10 / 0.30 / 0.65
(`engine.py` `_resolve_influence`, `_effect_size_to_magnitude`). -/
theorem c2_resolver_formula (influences : List Influence) (node_id : String) (tick : Nat)
    (hne : influences ≠ []) :
    (up_score influences = down_score influences →
      resolve_influence influences node_id tick = none) ∧
    (up_score influences ≠ down_score influences →
      ∃ r, resolve_influence influences node_id tick = some r ∧
        r.direction = (if down_score influences < up_score influences
          then Direction.up else Direction.down) ∧
        r.effect_size = max 0 (min 1 |up_score influences - down_score influences|) ∧
        r.confidence = max (1/10) (min 1
          (meanWinningConfidence influences
              (if down_score influences < up_score influences
               then Direction.up else Direction.down) *
            (1 - 1/2 * (min (up_score influences) (down_score influences)
              / max (1/100) (up_score influences + down_score influences))))) ∧
        (r.magnitude = Magnitude.none ↔ r.effect_size < 10/100) ∧
        (r.magnitude = Magnitude.small ↔ 10/100 ≤ r.effect_size ∧ r.effect_size < 30/100) ∧
        (r.magnitude = Magnitude.medium ↔ 30/100 ≤ r.effect_size ∧ r.effect_size < 65/100) ∧
        (r.magnitude = Magnitude.large ↔ 65/100 ≤ r.effect_size)) := by
  have hempty : influences.isEmpty = false := by
    cases influences with
    | nil => cases hne rfl
    | cons a l => rfl
  constructor
  · intro h
    unfold resolve_influence
    rw [hempty]
    simp [h]
  · intro h
    have hmin :
        (if down_score influences < up_score influences then down_score influences
          else up_score influences)
          = min (up_score influences) (down_score influences) := by
      rcases lt_or_gt_of_ne h with hlt | hgt
      · rw [if_neg (not_lt.mpr (le_of_lt hlt)), min_eq_left (le_of_lt hlt)]
      · rw [if_pos hgt, min_eq_right (le_of_lt hgt)]
    unfold resolve_influence
    rw [hempty]
    simp only [Bool.false_eq_true, if_false, if_neg h]
    refine ⟨_, rfl, rfl, rfl, ?_, ?_⟩
    · show clamp _ (1/10) 1 = _
      rw [hmin]
      rfl
    · exact effect_size_to_magnitude_bins _

/-- Witness for C2: a single `up` influence resolves to a state. -/
theorem c2_resolver_formula_witness :
    resolve_influence [c2SampleInfluence] wNodeId 0 ≠ none := by
  obtain ⟨r, hr, -⟩ :=
    (c2_resolver_formula [c2SampleInfluence] wNodeId 0 (by simp)).2 (by
      norm_num [up_score, down_score, directionScore, topInfluences, maxPriRank,
        priRank, c2SampleInfluence, List.filter_cons, direction_up_ne_down])
  rw [hr]
  exact Option.some_ne_none r

/-- C9: every state the resolver returns has confidence in `[0.1, 1]` — the
clamp in `_resolve_influence` floors it at 0.1 and caps it at 1.0, whatever
the contributing influences' confidences; every `AffectedNode` recorded in
`node_states`, `timelines` or `affected_nodes` is such a resolver output
(`engine.py` lines 90-108 and 195-209). -/
theorem c9_confidence_bounds (influences : List Influence) (node_id : String) (tick : Nat)
    (r : AffectedNode) (h : resolve_influence influences node_id tick = some r) :
    1/10 ≤ r.confidence ∧ r.confidence ≤ 1 := by
  by_cases he : influences.isEmpty = true
  · unfold resolve_influence at h
    rw [if_pos he] at h
    cases h
  · by_cases heq : up_score influences = down_score influences
    · unfold resolve_influence at h
      rw [if_neg he, if_pos heq] at h
      cases h
    · unfold resolve_influence at h
      rw [if_neg he, if_neg heq] at h
      simp only [Option.some.injEq] at h
      subst h
      exact clamp_mem _ _ _ (by norm_num)

/-- Witness for C9: a bucket whose only influence has confidence 0.01 still
resolves with confidence exactly the 0.1 floor. -/
theorem c9_confidence_bounds_witness :
    1/10 ≤ c9Result.confidence ∧ c9Result.confidence ≤ 1 :=
  c9_confidence_bounds [c9SampleInfluence] wNodeId 0 c9Result (by
    have hup : up_score [c9SampleInfluence] = 1 := by
      norm_num [up_score, directionScore, topInfluences, maxPriRank, priRank,
        c9SampleInfluence, List.filter_cons]
    have hdown : down_score [c9SampleInfluence] = 0 := by
      norm_num [down_score, directionScore, topInfluences, maxPriRank, priRank,
        c9SampleInfluence, List.filter_cons, direction_up_ne_down]
    unfold resolve_influence
    rw [hup, hdown]
    norm_num [meanWinningConfidence, winningInfluences, topInfluences, maxPriRank,
      priRank, clamp, effect_size_to_magnitude, revTimeMap, c9SampleInfluence,
      c9Result, min_def, max_def, List.filter_cons])

/-- Helper for C5: seeding keeps exactly the perturbations whose node is in
the graph, in order. -/
theorem seedInfluences_eq_filter_map (nodes : List String)
    (perturbations : List Perturbation) :
    seedInfluences nodes perturbations
      = (perturbations.filter (fun q => nodes.contains q.node_id)).map
          (fun q => (q.node_id, 0, seedInfluence q)) := by
  induction perturbations with
  | nil => rfl
  | cons p ps ih =>
    simp [seedInfluences] at ih
    cases hp : nodes.contains p.node_id <;> simp at hp <;>
      simp [seedInfluences, List.filterMap_cons, List.filter_cons, hp, ih]

/-- C5: each perturbation seeds one tick-0 influence with direction `up` for
`increase`, `down` for `decrease`/`block` and `unchanged` for `set`, with
confidence 1, effect_size 1, priority ultra, path `[node_id]` and empty
steps; perturbations on unknown nodes are silently skipped; and a bucket
containing only `unchanged` influences yields no resolution
(`engine.py` `simulate` lines 61-74, `_resolve_influence`). -/
theorem c5_seeding (nodes : List String) (perturbations : List Perturbation)
    (p : Perturbation) (influences : List Influence) (node_id : String) (tick : Nat) :
    seedInfluences nodes perturbations
      = (perturbations.filter (fun q => nodes.contains q.node_id)).map
          (fun q => (q.node_id, 0, seedInfluence q)) ∧
    seedInfluence p
      = { direction :=
            (match p.op with
             | Op.increase => Direction.up
             | Op.decrease => Direction.down
             | Op.block => Direction.down
             | Op.set => Direction.unchanged)
          confidence := 1
          effect_size := 1
          priority := Priority.ultra
          path := [p.node_id]
          steps := [] } ∧
    ((∀ i ∈ influences, i.direction = Direction.unchanged) →
      resolve_influence influences node_id tick = none) := by
  refine ⟨seedInfluences_eq_filter_map nodes perturbations, ?_, ?_⟩
  · cases hop : p.op <;> simp [seedInfluence, seedDirection, hop]
  · intro hall
    have htop : ∀ i ∈ topInfluences influences, i.direction = Direction.unchanged :=
      fun i hi => hall i (List.mem_of_mem_filter hi)
    have hup : up_score influences = 0 := by
      unfold up_score directionScore
      rw [List.filter_eq_nil_iff.mpr (fun i hi => by simp [htop i hi])]
      rfl
    have hdown : down_score influences = 0 := by
      unfold down_score directionScore
      rw [List.filter_eq_nil_iff.mpr (fun i hi => by simp [htop i hi])]
      rfl
    unfold resolve_influence
    rw [hup, hdown]
    simp

/-- Witness for C5: a bucket holding only the influence seeded by a `set`
perturbation (direction `unchanged`) yields no resolution. -/
theorem c5_seeding_witness :
    resolve_influence [c5UnchangedInfluence] wNodeId 0 = none :=
  (c5_seeding [] [] c5SamplePerturbation [c5UnchangedInfluence] wNodeId 0).2.2 (by decide)

/-- Helper for C6: extending `added` with a node that does not occur in the
effects list leaves its fresh set unchanged. -/
theorem flagFresh_append_not_mem (user added : List String) (n : String)
    (effects : List (String × Op)) (h : ∀ e ∈ effects, e.1 ≠ n) :
    flagFresh user (added ++ [n]) effects = flagFresh user added effects := by
  unfold flagFresh
  congr 1
  apply List.filter_congr
  intro e he
  have hne := h e he
  simp [hne]

/-- Helper for C6: the node ids of a flag's fresh perturbations. -/
theorem flagFresh_map_node_id (user added : List String) (effects : List (String × Op)) :
    (flagFresh user added effects).map (fun q => q.node_id)
      = (effects.filter (fun e => !(user.contains e.1 || added.contains e.1))).map
          (fun e => e.1) := by
  simp [flagFresh, List.map_map]

/-- Helper for C6: membership in a flag's fresh perturbations excludes user
nodes and already-added nodes. -/
theorem mem_flagFresh (user added : List String) (effects : List (String × Op))
    (q : Perturbation) (hq : q ∈ flagFresh user added effects) :
    q.node_id ∉ user ∧ q.node_id ∉ added := by
  unfold flagFresh at hq
  obtain ⟨e, he, rfl⟩ := List.mem_map.mp hq
  have hp := List.of_mem_filter he
  simp at hp
  exact ⟨hp.1, hp.2⟩

/-- Helper for C6: the threaded inner loop of `apply_context_baselines`
computes the flag's fresh perturbations in one batch whenever the flag's
effects carry no duplicate node id (true of every entry of the fixed
table). -/
theorem addEffects_eq (user : List String) (effects : List (String × Op))
    (merged : List Perturbation) (added : List String)
    (hnd : (effects.map (fun e => e.1)).Nodup) :
    addEffects user effects merged added
      = (merged ++ flagFresh user added effects,
         added ++ (flagFresh user added effects).map (fun q => q.node_id)) := by
  induction effects generalizing merged added with
  | nil => simp [addEffects, flagFresh]
  | cons e rest ih =>
    obtain ⟨n, op⟩ := e
    rw [List.map_cons, List.nodup_cons] at hnd
    obtain ⟨hn, hrest⟩ := hnd
    have hrest_ne : ∀ e ∈ rest, e.1 ≠ n := by
      intro e he hEq
      exact hn (hEq ▸ List.mem_map_of_mem (fun e => e.1) he)
    by_cases hmem : n ∈ user ∨ n ∈ added
    · have hc : (user.contains n || added.contains n) = true := by
        rcases hmem with h | h <;> simp [h]
      have hnot : ¬(n ∉ user ∧ n ∉ added) := fun hand => hmem.elim hand.1 hand.2
      have hskip : flagFresh user added ((n, op) :: rest) = flagFresh user added rest := by
        simp [flagFresh, List.filter_cons, hnot]
      simp only [addEffects]
      rw [if_pos hc, ih merged added hrest, hskip]
    · have hpair := not_or.mp hmem
      have hc : ¬((user.contains n || added.contains n) = true) := by
        simp [hpair.1, hpair.2]
      have hkeep : flagFresh user added ((n, op) :: rest)
          = { node_id := n, op := op, value := none } :: flagFresh user added rest := by
        simp [flagFresh, List.filter_cons, hpair.1, hpair.2]
      simp only [addEffects]
      rw [if_neg hc, ih _ _ hrest,
        flagFresh_append_not_mem user added n rest hrest_ne, hkeep]
      simp

/-- Helper for C6: the outer loop appends exactly the claim-side extras. -/
theorem applyBaselinesTable_eq (context : List (String × Bool)) (user : List String)
    (table : List (String × List (String × Op))) :
    ∀ (merged : List Perturbation) (added : List String),
      (∀ entry ∈ table, ((entry.2.map (fun e => e.1)).Nodup)) →
      applyBaselinesTable table context user merged added
        = merged ++ specExtra user context table added := by
  induction table with
  | nil =>
    intro merged added _
    simp [applyBaselinesTable, specExtra]
  | cons entry rest ih =>
    intro merged added hnd
    obtain ⟨flag, effects⟩ := entry
    have heff : (effects.map (fun e => e.1)).Nodup := hnd _ (List.mem_cons_self _ _)
    have hrest : ∀ entry ∈ rest, ((entry.2.map (fun e => e.1)).Nodup) :=
      fun e he => hnd e (List.mem_cons_of_mem _ he)
    by_cases hflag : ((List.lookup flag context).getD false) = true
    · simp only [applyBaselinesTable, specExtra]
      rw [if_pos hflag, if_pos hflag, addEffects_eq user effects merged added heff,
        ih _ _ hrest]
      simp
    · simp only [applyBaselinesTable, specExtra]
      rw [if_neg hflag, if_neg hflag]
      exact ih merged added hrest

/-- Helper for C6: every appended extra avoids user nodes and the incoming
`added` set, and the extras never repeat a node id. -/
theorem specExtra_fresh_nodup (user : List String) (context : List (String × Bool)) :
    ∀ (table : List (String × List (String × Op))) (added : List String),
      (∀ entry ∈ table, ((entry.2.map (fun e => e.1)).Nodup)) →
      (∀ q ∈ specExtra user context table added, q.node_id ∉ user ∧ q.node_id ∉ added) ∧
      ((specExtra user context table added).map (fun q => q.node_id)).Nodup := by
  intro table
  induction table with
  | nil =>
    intro added _
    simp [specExtra]
  | cons entry rest ih =>
    intro added hnd
    obtain ⟨flag, effects⟩ := entry
    have heff : (effects.map (fun e => e.1)).Nodup := hnd _ (List.mem_cons_self _ _)
    have hrest : ∀ entry ∈ rest, ((entry.2.map (fun e => e.1)).Nodup) :=
      fun e he => hnd e (List.mem_cons_of_mem _ he)
    by_cases hflag : ((List.lookup flag context).getD false) = true
    · simp only [specExtra]
      rw [if_pos hflag]
      have hrec := ih (added ++ (flagFresh user added effects).map (fun q => q.node_id)) hrest
      constructor
      · intro q hq
        rcases List.mem_append.mp hq with hq | hq
        · exact mem_flagFresh user added effects q hq
        · have := (hrec.1 q hq)
          refine ⟨this.1, fun hmem => this.2 (List.mem_append.mpr (Or.inl hmem))⟩
      · rw [List.map_append]
        apply List.Nodup.append
        · rw [flagFresh_map_node_id]
          exact ((List.filter_sublist effects).map (fun e => e.1)).nodup heff
        · exact hrec.2
        · intro x hx hx'
          obtain ⟨q, hq, rfl⟩ := List.mem_map.mp hx'
          exact (hrec.1 q hq).2 (List.mem_append.mpr (Or.inr hx))
    · simp only [specExtra]
      rw [if_neg hflag]
      exact ih added hrest

/-- Helper for C6: no flag of the fixed table repeats a node id within its
own effects list. -/
theorem context_table_nodup :
    ∀ entry ∈ CONTEXT_BASELINE_EFFECTS, ((entry.2.map (fun e => e.1)).Nodup) := by
  decide

/-- C6: context-baseline expansion returns the user perturbations followed
by, for each flag set true in table order, each of that flag's baseline
perturbations whose node id is neither among the user perturbations' node
ids nor already appended by an earlier true flag; consequently a user
perturbation always wins over a context baseline on the same node, and an
earlier flag wins over a later flag on node collision (no node is appended
twice) (`context_baselines.py` `apply_context_baselines`). -/
theorem c6_context_baselines (perturbations : List Perturbation)
    (context : List (String × Bool)) :
    apply_context_baselines perturbations context
      = perturbations
        ++ specExtra (perturbations.map (fun p => p.node_id)) context
            CONTEXT_BASELINE_EFFECTS [] ∧
    (∀ q ∈ specExtra (perturbations.map (fun p => p.node_id)) context
        CONTEXT_BASELINE_EFFECTS [],
      q.node_id ∉ perturbations.map (fun p => p.node_id)) ∧
    ((specExtra (perturbations.map (fun p => p.node_id)) context
        CONTEXT_BASELINE_EFFECTS []).map (fun q => q.node_id)).Nodup := by
  have hspec := specExtra_fresh_nodup (perturbations.map (fun p => p.node_id)) context
    CONTEXT_BASELINE_EFFECTS [] context_table_nodup
  refine ⟨?_, fun q hq => (hspec.1 q hq).1, hspec.2⟩
  unfold apply_context_baselines
  exact applyBaselinesTable_eq context (perturbations.map (fun p => p.node_id))
    CONTEXT_BASELINE_EFFECTS perturbations [] context_table_nodup

/-- Witness for C6: with the `ace_inhibitor` flag and a user perturbation on
the AT1 receptor, only the aldosterone baseline is appended. -/
theorem c6_context_baselines_witness :
    apply_context_baselines c6SampleUser c6SampleContext = c6Expected := by
  rw [(c6_context_baselines c6SampleUser c6SampleContext).1]
  decide

/-- Helper for C8: one edge compiles to `max(1, |temporal_profile|)`
phases. -/
theorem compileEdge_length (e : Edge) :
    (compileEdge e).length = max 1 e.temporal_profile.length := by
  unfold compileEdge
  cases h : e.temporal_profile with
  | nil => simp
  | cons p ps =>
    simp only [List.length_map, List.length_cons]
    omega

/-- C8: the edge compiler emits `Σ max(1, |temporal_profile|)` compiled
edges; an edge without temporal profile yields exactly one phase at the
edge's delay inheriting every field with `is_legacy_timing = true`; an edge
with a non-empty profile yields one compiled phase per entry with unset
phase fields falling back to the edge's values and
`is_legacy_timing = false` (`engine.py` `_compile_edges`; `_legacy_timing`
is never set, so it is `false` on every edge the loader builds). -/
theorem c8_compile_edges (edges : List Edge) (e : Edge) :
    (compile_edges edges).length
      = (edges.map (fun ed => max 1 ed.temporal_profile.length)).sum ∧
    (e.temporal_profile = [] →
      compileEdge e
        = [{ source := e.source, target := e.target, at_ts := e.delay
             at_tick := TIME_MAP e.delay, rel := e.rel, weight := e.weight
             priority := e.priority, activation_direction := e.activation_direction
             activation_threshold := e.activation_threshold, context := e.context
             description := e.description, is_legacy_timing := true }]) ∧
    (e.temporal_profile ≠ [] → e.legacy_timing = false →
      compileEdge e
        = e.temporal_profile.map (fun phase =>
            { source := e.source, target := e.target, at_ts := phase.at_ts
              at_tick := TIME_MAP phase.at_ts, rel := phase.rel.getD e.rel
              weight := phase.weight.getD e.weight
              priority := phase.priority.getD e.priority
              activation_direction := phase.activation_direction.getD e.activation_direction
              activation_threshold :=
                (match phase.activation_threshold with
                 | some t => some t
                 | none => e.activation_threshold)
              context := e.context
              description := orElseDescription phase.description e.description
              is_legacy_timing := false })) := by
  refine ⟨?_, ?_, ?_⟩
  · induction edges with
    | nil => rfl
    | cons x xs ih =>
      unfold compile_edges at ih ⊢
      simp only [List.map_cons, List.flatten_cons, List.length_append, List.sum_cons,
        compileEdge_length, ih]
  · intro h
    unfold compileEdge
    rw [h]
    simp [defaultPhase, compilePhase, orElseDescription, h]
  · intro hne hleg
    unfold compileEdge
    cases h : e.temporal_profile with
    | nil => exact absurd h hne
    | cons p ps =>
      apply List.map_congr_left
      intro phase _
      simp [compilePhase, hleg, h]

/-- Witness for C8: a profile-free edge compiles to the single inherited
legacy phase. -/
theorem c8_compile_edges_witness :
    compileEdge c8SampleEdge
      = [{ source := "a", target := "b", at_ts := Timescale.hours
           at_tick := 2, rel := Relation.increases, weight := 1
           priority := Priority.medium, activation_direction := ActivationDirection.any
           activation_threshold := none, context := [], description := none
           is_legacy_timing := true }] :=
  (c8_compile_edges [] c8SampleEdge).2.1 rfl

/-- Helper for C4: when no stored entry shares the path, the scan appends. -/
theorem replaceFirst_no_match (l : List TraceStep) (t : TraceStep)
    (h : ∀ x ∈ l, x.path ≠ t.path) :
    replaceFirst l t = l ++ [t] := by
  induction l with
  | nil => rfl
  | cons x xs ih =>
    rw [replaceFirst, if_neg (h x (List.mem_cons_self x xs))]
    rw [ih (fun y hy => h y (List.mem_cons_of_mem x hy))]
    rfl

/-- Helper for C4: the scan replaces the first path match, and only on
strictly greater confidence. -/
theorem replaceFirst_match (pre : List TraceStep) (x : TraceStep)
    (post : List TraceStep) (t : TraceStep)
    (hpre : ∀ y ∈ pre, y.path ≠ t.path) (hx : x.path = t.path) :
    replaceFirst (pre ++ x :: post) t
      = pre ++ (if x.confidence < t.confidence then t else x) :: post := by
  induction pre with
  | nil =>
    simp only [List.nil_append]
    rw [replaceFirst, if_pos hx]
  | cons y ys ih =>
    simp only [List.cons_append]
    rw [replaceFirst, if_neg (hpre y (List.mem_cons_self y ys))]
    rw [ih (fun z hz => hpre z (List.mem_cons_of_mem y hz))]

/-- C4: a trace upsert replaces the stored same-path entry iff the new
confidence is strictly greater (keeping it otherwise), appends when no entry
shares the path, and the target's resulting list is sorted descending by
`(confidence, path length)` and holds at most 10 entries; a previously
absent target simply stores the new trace (`engine.py` `_upsert_trace`). -/
theorem c4_upsert_trace (existing : List TraceStep) (t : TraceStep) :
    upsert_trace none t = [t] ∧
    ((∀ x ∈ existing, x.path ≠ t.path) →
      upsert_trace (some existing) t = (sortTraces (existing ++ [t])).take 10) ∧
    (∀ pre x post, existing = pre ++ x :: post →
      (∀ y ∈ pre, y.path ≠ t.path) → x.path = t.path →
      upsert_trace (some existing) t
        = (sortTraces (pre ++ (if x.confidence < t.confidence then t else x)
            :: post)).take 10) ∧
    (upsert_trace (some existing) t).length ≤ 10 ∧
    (upsert_trace (some existing) t).Sorted traceKeyGe := by
  refine ⟨rfl, ?_, ?_, ?_, ?_⟩
  · intro h
    show (sortTraces (replaceFirst existing t)).take 10 = _
    rw [replaceFirst_no_match existing t h]
  · intro pre x post hdecomp hpre hx
    subst hdecomp
    show (sortTraces (replaceFirst (pre ++ x :: post) t)).take 10 = _
    rw [replaceFirst_match pre x post t hpre hx]
  · exact List.length_take_le 10 _
  · exact (List.sorted_insertionSort traceKeyGe _).sublist
      (List.take_sublist 10 _)

/-- Witness for C4: upserting into an existing empty ranked list stores just
the new trace. -/
theorem c4_upsert_trace_witness :
    upsert_trace (some []) c4SampleTrace = [c4SampleTrace] := by
  rw [(c4_upsert_trace [] c4SampleTrace).2.1 (by simp)]
  rfl

/-- Helper for C3: a matching span never matches the empty sequence. -/
theorem matchSpan_ne_nil {p seq : List String} {i j : Nat}
    (h : MatchSpan p seq i j) : seq ≠ [] := by
  induction h with
  | single => simp
  | head => simp
  | skip _ _ _ _ _ _ ih => exact ih

/-- Helper for C3: dropping the first element of a matched sequence leaves a
match with the same last index. -/
theorem matchSpan_tail (s : String) (rest : List String) (hrest : rest ≠ []) :
    ∀ (p : List String) (i j : Nat), MatchSpan p (s :: rest) i j →
      ∃ i1, MatchSpan p rest i1 j := by
  intro p
  induction p with
  | nil => intro i j h; cases h
  | cons a ps ih =>
    intro i j h
    cases h with
    | single => exact absurd rfl hrest
    | head _ _ _ i0 j0 hm => exact ⟨i0 + 1, MatchSpan.skip _ _ _ _ _ hm⟩
    | skip _ _ _ i0 j0 hm =>
      obtain ⟨i1, h1⟩ := ih i0 j0 hm
      exact ⟨i1 + 1, MatchSpan.skip _ _ _ _ _ h1⟩

/-- Helper for C3: whenever any match exists, the greedy tail scan completes,
and at the least possible last index. -/
theorem greedyLast_min :
    ∀ (p seq : List String) (j' : Nat) (i' : Nat), MatchSpan p seq i' j' →
      ∃ j, greedyLast p seq = some j ∧ j ≤ j' := by
  intro p
  induction p with
  | nil => intro seq j' i' h; cases h
  | cons a ps ih =>
    intro seq j' i' h
    cases h with
    | single => exact ⟨0, by simp [greedyLast], Nat.le_refl 0⟩
    | head _ _ rest i0 j0 hm =>
      obtain ⟨j, hj, hle⟩ := ih rest j0 i0 hm
      have hrest : rest ≠ [] := matchSpan_ne_nil hm
      cases rest with
      | nil => exact absurd rfl hrest
      | cons r rs => exact ⟨j + 1, by simp [greedyLast, hj], Nat.succ_le_succ hle⟩
    | skip _ _ _ i0 j0 hm =>
      obtain ⟨s, rest, rfl⟩ : ∃ s rest, seq = s :: rest := by
        cases seq with
        | nil => exact absurd rfl (matchSpan_ne_nil hm)
        | cons s rest => exact ⟨s, rest, rfl⟩
      by_cases hax : a = s
      · subst hax
        cases rest with
        | nil => exact ⟨0, by simp [greedyLast], Nat.zero_le _⟩
        | cons r rs =>
          obtain ⟨i1, h1⟩ := matchSpan_tail a (r :: rs) (by simp) ps i0 j0 hm
          obtain ⟨j, hj, hle⟩ := ih (r :: rs) j0 i1 h1
          exact ⟨j + 1, by simp [greedyLast, hj], Nat.succ_le_succ hle⟩
      · obtain ⟨j, hj, hle⟩ := ih (s :: rest) j0 i0 hm
        exact ⟨j + 1, by simp [greedyLast, hax, hj], Nat.succ_le_succ hle⟩

/-- Helper for C3: whenever any match exists the greedy scan returns a span,
with both endpoints least among all matching spans. -/
theorem spanRel_min :
    ∀ (p seq : List String) (i' j' : Nat), MatchSpan p seq i' j' →
      ∃ i j, spanRel p seq = some (i, j) ∧ i ≤ i' ∧ j ≤ j' := by
  intro p
  induction p with
  | nil => intro seq i' j' h; cases h
  | cons a ps ih =>
    intro seq i' j' h
    cases h with
    | single => exact ⟨0, 0, by simp [spanRel], Nat.le_refl 0, Nat.le_refl 0⟩
    | head _ _ rest i0 j0 hm =>
      have hrest := matchSpan_ne_nil hm
      cases rest with
      | nil => exact absurd rfl hrest
      | cons r rs =>
        obtain ⟨b, hb, hble⟩ := greedyLast_min ps (r :: rs) j0 i0 hm
        exact ⟨0, b + 1, by simp [spanRel, hb], Nat.zero_le _, Nat.succ_le_succ hble⟩
    | skip _ _ _ i0 j0 hm =>
      obtain ⟨s, rest, rfl⟩ : ∃ s rest, seq = s :: rest := by
        cases seq with
        | nil => exact absurd rfl (matchSpan_ne_nil hm)
        | cons s rest => exact ⟨s, rest, rfl⟩
      by_cases hax : a = s
      · subst hax
        cases rest with
        | nil => exact ⟨0, 0, by simp [spanRel], Nat.zero_le _, Nat.zero_le _⟩
        | cons r rs =>
          obtain ⟨i1, h1⟩ := matchSpan_tail a (r :: rs) (by simp) ps i0 j0 hm
          obtain ⟨b, hb, hble⟩ := greedyLast_min ps (r :: rs) j0 i1 h1
          exact ⟨0, b + 1, by simp [spanRel, hb], Nat.zero_le _, Nat.succ_le_succ hble⟩
      · obtain ⟨i, j, hs, hi, hj⟩ := ih (s :: rest) i0 j0 hm
        exact ⟨i + 1, j + 1, by simp [spanRel, hax, hs], Nat.succ_le_succ hi,
          Nat.succ_le_succ hj⟩

/-- Helper for C3: a completed greedy tail scan is an actual match. -/
theorem greedyLast_sound :
    ∀ (p seq : List String) (j : Nat), greedyLast p seq = some j →
      ∃ i, MatchSpan p seq i j := by
  intro p
  induction p with
  | nil => intro seq j h; simp [greedyLast] at h
  | cons a ps ih =>
    intro seq j h
    cases seq with
    | nil => simp [greedyLast] at h
    | cons s rest =>
      by_cases hax : a = s
      · subst hax
        cases rest with
        | nil =>
          have hv : greedyLast (a :: ps) [a] = some 0 := by simp [greedyLast]
          rw [hv] at h
          obtain rfl : (0 : Nat) = j := Option.some.inj h
          exact ⟨0, MatchSpan.single a ps⟩
        | cons r rs =>
          have hv : greedyLast (a :: ps) (a :: r :: rs)
              = (greedyLast ps (r :: rs)).map (fun b => b + 1) := by
            simp [greedyLast]
          rw [hv] at h
          cases hb : greedyLast ps (r :: rs) with
          | none => rw [hb] at h; cases h
          | some b =>
            rw [hb] at h
            obtain rfl : b + 1 = j := Option.some.inj h
            obtain ⟨i1, h1⟩ := ih (r :: rs) b hb
            exact ⟨0, MatchSpan.head a ps (r :: rs) i1 b h1⟩
      · have hv : greedyLast (a :: ps) (s :: rest)
            = (greedyLast ps (s :: rest)).map (fun b => b + 1) := by
          simp [greedyLast, hax]
        rw [hv] at h
        cases hb : greedyLast ps (s :: rest) with
        | none => rw [hb] at h; cases h
        | some b =>
          rw [hb] at h
          obtain rfl : b + 1 = j := Option.some.inj h
          obtain ⟨i1, h1⟩ := ih (s :: rest) b hb
          exact ⟨i1 + 1, MatchSpan.skip a ps (s :: rest) i1 b h1⟩

/-- Helper for C3: a returned greedy span is an actual matching span. -/
theorem spanRel_sound :
    ∀ (p seq : List String) (i j : Nat), spanRel p seq = some (i, j) →
      MatchSpan p seq i j := by
  intro p
  induction p with
  | nil => intro seq i j h; simp [spanRel] at h
  | cons a ps ih =>
    intro seq i j h
    cases seq with
    | nil => simp [spanRel] at h
    | cons s rest =>
      by_cases hax : a = s
      · subst hax
        cases rest with
        | nil =>
          have hv : spanRel (a :: ps) [a] = some (0, 0) := by simp [spanRel]
          rw [hv] at h
          have h2 := Option.some.inj h
          obtain rfl : (0 : Nat) = i := congrArg Prod.fst h2
          obtain rfl : (0 : Nat) = j := congrArg Prod.snd h2
          exact MatchSpan.single a ps
        | cons r rs =>
          have hv : spanRel (a :: ps) (a :: r :: rs)
              = (greedyLast ps (r :: rs)).map (fun b => (0, b + 1)) := by
            simp [spanRel]
          rw [hv] at h
          cases hb : greedyLast ps (r :: rs) with
          | none => rw [hb] at h; cases h
          | some b =>
            rw [hb] at h
            have h2 := Option.some.inj h
            obtain rfl : (0 : Nat) = i := congrArg Prod.fst h2
            obtain rfl : b + 1 = j := congrArg Prod.snd h2
            obtain ⟨i1, h1⟩ := greedyLast_sound ps (r :: rs) b hb
            exact MatchSpan.head a ps (r :: rs) i1 b h1
      · have hv : spanRel (a :: ps) (s :: rest)
            = (spanRel ps (s :: rest)).map (fun q => (q.1 + 1, q.2 + 1)) := by
          simp [spanRel, hax]
        rw [hv] at h
        cases hq : spanRel ps (s :: rest) with
        | none => rw [hq] at h; cases h
        | some q =>
          obtain ⟨q1, q2⟩ := q
          rw [hq] at h
          have h2 := Option.some.inj h
          obtain rfl : q1 + 1 = i := congrArg Prod.fst h2
          obtain rfl : q2 + 1 = j := congrArg Prod.snd h2
          exact MatchSpan.skip a ps (s :: rest) q1 q2 (ih (s :: rest) q1 q2 hq)

/-- Helper for C3: the loop with a recorded first index computes the greedy
tail completion, shifted by the enumerate counter. -/
theorem spanAux_some_eq :
    ∀ (p seq : List String) (idx f : Nat),
      spanAux p seq idx (some f)
        = (greedyLast p seq).map (fun b => (f, idx + b)) := by
  intro p
  induction p with
  | nil => intro seq idx f; cases seq <;> rfl
  | cons a ps ih =>
    intro seq idx f
    cases seq with
    | nil => rfl
    | cons s rest =>
      by_cases hax : a = s
      · subst hax
        cases rest with
        | nil => simp [spanAux, greedyLast]
        | cons r rs =>
          have hstep : spanAux (a :: ps) (a :: r :: rs) idx (some f)
              = spanAux ps (r :: rs) (idx + 1) (some f) := by
            simp [spanAux]
          have hg2 : greedyLast (a :: ps) (a :: r :: rs)
              = (greedyLast ps (r :: rs)).map (fun b => b + 1) := by
            simp [greedyLast]
          rw [hstep, ih (r :: rs) (idx + 1) f, hg2]
          cases greedyLast ps (r :: rs) with
          | none => rfl
          | some b =>
            show some (f, idx + 1 + b) = some (f, idx + (b + 1))
            exact congrArg some (congrArg (Prod.mk f) (by omega))
      · have hstep : spanAux (a :: ps) (s :: rest) idx (some f)
            = spanAux ps (s :: rest) (idx + 1) (some f) := by
          simp [spanAux, hax]
        have hg2 : greedyLast (a :: ps) (s :: rest)
            = (greedyLast ps (s :: rest)).map (fun b => b + 1) := by
          simp [greedyLast, hax]
        rw [hstep, ih (s :: rest) (idx + 1) f, hg2]
        cases greedyLast ps (s :: rest) with
        | none => rfl
        | some b =>
          show some (f, idx + 1 + b) = some (f, idx + (b + 1))
          exact congrArg some (congrArg (Prod.mk f) (by omega))

/-- Helper for C3: the loop without a recorded first index computes the
relative greedy span, shifted by the enumerate counter. -/
theorem spanAux_none_eq :
    ∀ (p seq : List String) (idx : Nat),
      spanAux p seq idx none
        = (spanRel p seq).map (fun q => (idx + q.1, idx + q.2)) := by
  intro p
  induction p with
  | nil => intro seq idx; cases seq <;> rfl
  | cons a ps ih =>
    intro seq idx
    cases seq with
    | nil => rfl
    | cons s rest =>
      by_cases hax : a = s
      · subst hax
        cases rest with
        | nil => simp [spanAux, spanRel]
        | cons r rs =>
          have hstep : spanAux (a :: ps) (a :: r :: rs) idx none
              = spanAux ps (r :: rs) (idx + 1) (some idx) := by
            simp [spanAux]
          have hs2 : spanRel (a :: ps) (a :: r :: rs)
              = (greedyLast ps (r :: rs)).map (fun b => (0, b + 1)) := by
            simp [spanRel]
          rw [hstep, spanAux_some_eq ps (r :: rs) (idx + 1) idx, hs2]
          cases greedyLast ps (r :: rs) with
          | none => rfl
          | some b =>
            show some (idx, idx + 1 + b) = some (idx + 0, idx + (b + 1))
            exact congrArg some (by
              rw [Prod.mk.injEq]
              exact ⟨by omega, by omega⟩)
      · have hstep : spanAux (a :: ps) (s :: rest) idx none
            = spanAux ps (s :: rest) (idx + 1) none := by
          simp [spanAux, hax]
        have hs2 : spanRel (a :: ps) (s :: rest)
            = (spanRel ps (s :: rest)).map (fun q => (q.1 + 1, q.2 + 1)) := by
          simp [spanRel, hax]
        rw [hstep, ih (s :: rest) (idx + 1), hs2]
        cases spanRel ps (s :: rest) with
        | none => rfl
        | some q =>
          obtain ⟨q1, q2⟩ := q
          show some (idx + 1 + q1, idx + 1 + q2)
            = some (idx + (q1 + 1), idx + (q2 + 1))
          exact congrArg some (by
            rw [Prod.mk.injEq]
            exact ⟨by omega, by omega⟩)

/-- Helper for C3: the source scan agrees with the relative greedy span. -/
theorem subsequence_span_eq (path : List String) (s : String) (rest : List String) :
    subsequence_span path (s :: rest) = spanRel path (s :: rest) := by
  show spanAux path (s :: rest) 0 none = _
  rw [spanAux_none_eq]
  cases spanRel path (s :: rest) with
  | none => rfl
  | some q =>
    obtain ⟨q1, q2⟩ := q
    show some (0 + q1, 0 + q2) = some (q1, q2)
    exact congrArg some (by
      rw [Prod.mk.injEq]
      exact ⟨by omega, by omega⟩)

/-- C3 counterexample: on path `[a, a, b]` and sequence `[a, b]` the source
returns span `(0, 2)`, yet `(1, 2)` is also a matching span — strictly
contained in `(0, 2)` and of smaller width — so the reported span is not the
smallest matching span (`engine.py` `_subsequence_span`). -/
theorem c3_counterexample_not_minimal :
    subsequence_span cxPath cxSeq = some (0, 2) ∧
    MatchSpan cxPath cxSeq 1 2 ∧
    ¬(2 - 0 ≤ 2 - 1) := by
  refine ⟨by decide, ?_, by decide⟩
  exact MatchSpan.skip cxA [cxA, cxB] cxSeq 0 1
    (MatchSpan.head cxA [cxB] [cxB] 0 0 (MatchSpan.single cxB []))

/-- C3 as amended: whenever the syndrome's sequence occurs as an
order-preserving (possibly non-contiguous) subsequence of the path, the
matcher returns a matching span `(first_idx, last_idx)` whose first index
and whose last index are each minimal among all matching spans — not
necessarily a span of minimal width (`engine.py` `_subsequence_span`). -/
theorem c3_greedy_span (path seq : List String) (i' j' : Nat)
    (hm : MatchSpan path seq i' j') :
    ∃ i j, subsequence_span path seq = some (i, j) ∧ MatchSpan path seq i j ∧
      ∀ i'' j'', MatchSpan path seq i'' j'' → i ≤ i'' ∧ j ≤ j'' := by
  obtain ⟨s, rest, rfl⟩ : ∃ s rest, seq = s :: rest := by
    cases seq with
    | nil => exact absurd rfl (matchSpan_ne_nil hm)
    | cons s rest => exact ⟨s, rest, rfl⟩
  obtain ⟨i, j, hs, -, -⟩ := spanRel_min path (s :: rest) i' j' hm
  rw [subsequence_span_eq]
  refine ⟨i, j, hs, spanRel_sound path (s :: rest) i j hs, ?_⟩
  intro i'' j'' h''
  obtain ⟨i2, j2, hs2, hi2, hj2⟩ := spanRel_min path (s :: rest) i'' j'' h''
  rw [hs] at hs2
  obtain ⟨rfl, rfl⟩ : i2 = i ∧ j2 = j := by
    have := Option.some.inj hs2
    exact ⟨congrArg Prod.fst this.symm, congrArg Prod.snd this.symm⟩
  exact ⟨hi2, hj2⟩

/-- Witness for C3: on the concrete path `[a, a, b]` the matcher produces a
span. -/
theorem c3_greedy_span_witness :
    (subsequence_span cxPath cxSeq).isSome = true := by
  obtain ⟨i, j, hs, -, -⟩ := c3_greedy_span cxPath cxSeq 1 2
    (MatchSpan.skip cxA [cxA, cxB] cxSeq 0 1
      (MatchSpan.head cxA [cxB] [cxB] 0 0 (MatchSpan.single cxB [])))
  rw [hs]
  rfl

/-- C10: every `ComparedNode` built by the compare classifier has
`baseline_effect_size`, `intervention_effect_size` and `effect_size_delta`
equal to `0`, whatever the two simulations computed, because
`api.py` `_classify_change` never supplies those fields and the model
defaults them to `0.0`. -/
theorem c10_effect_size_defaults (baseline intervention : Option AffectedNode) :
    (classify_change baseline intervention).baseline_effect_size = 0 ∧
    (classify_change baseline intervention).intervention_effect_size = 0 ∧
    (classify_change baseline intervention).effect_size_delta = 0 :=
  ⟨rfl, rfl, rfl⟩

end HFP
